import Mathlib

/-!
Verification of the batching and loss code of sidechainnet
(sidechainnet/datasets/collate.py and sidechainnet/examples/losses.py).

Tensors are modelled as (nested) lists.  Real scalars are modelled as `ℝ`;
a scalar that may be NaN is modelled as `Option ℝ` with `none` standing for
NaN.  A Python function that can raise an exception is modelled as returning
`Option`, with `none` standing for the raised exception.
-/

/-- Modelled from the spec: NUM_COORDS_PER_RES is imported from
sidechainnet's build_info module (not part of the two source files); it is
the fixed number of coordinate rows allotted to each residue. -/
def NUM_COORDS_PER_RES : Nat := 14

/-- MAX_SEQ_LEN = 500 from collate.py. -/
def MAX_SEQ_LEN : Nat := 500

/-- Modelled from the spec: VOCAB.pad_id is imported from sidechainnet's
sequence module (not part of the two source files); it is the integer token
used to pad sequences.  losses.py compares sequence tokens against 20 to
detect padding. -/
def VOCAB_pad_id : Int := 20

/-- max(len(inst) for inst in insts) (collate.py line 33); Python max of a
list of lengths, computed as a left fold from 0. -/
def max_batch_len {α : Type} (insts : List (List α)) : Nat :=
  (insts.map List.length).foldl max 0

/-- batch[:, :cols]: truncate every row of the batch to at most `cols`
entries; `none` (Python's None bound) leaves the batch unchanged. -/
def trim_batch {α : Type} (batch : List (List α)) : Option Nat → List (List α)
  | none => batch
  | some k => batch.map (List.take k)

/-- Embedding of collate_fn (collate.py lines 27-55) for the sequences=True
path, where instances are 1-D integer arrays and the pad value is
VOCAB.pad_id.  Returns `none` where the Python function raises: max() over
an empty list (ValueError), and None * NUM_COORDS_PER_RES when coords=True
with max_seq_len=None (TypeError). -/
def collate_fn_seq (insts : List (List Int)) (coords : Bool)
    (max_seq_len : Option Nat) : Option (List (List Int)) :=
  if insts.isEmpty then none
  else if coords = true ∧ max_seq_len = none then none
  else
    let m := max_batch_len insts
    let batch := insts.map (fun inst =>
      inst ++ List.replicate (m - inst.length) VOCAB_pad_id)
    some (trim_batch batch
      (if coords then max_seq_len.map (fun k => k * NUM_COORDS_PER_RES)
       else max_seq_len))

/-- Embedding of collate_fn (collate.py lines 27-55) for the
sequences=False path, where instances are 2-D real arrays (lists of rows)
and the pad value is a zero row of the instance's own row width
(np.zeros((max_batch_len - len(inst), inst.shape[-1]))).  The row width of
an instance is read off its first row (an instance with zero rows
contributes width 0, since a list of rows does not retain the width of an
empty array).  Returns `none` where the Python function raises, as in
`collate_fn_seq`. -/
def collate_fn_arr (insts : List (List (List ℝ))) (coords : Bool)
    (max_seq_len : Option Nat) : Option (List (List (List ℝ))) :=
  if insts.isEmpty then none
  else if coords = true ∧ max_seq_len = none then none
  else
    let m := max_batch_len insts
    let batch := insts.map (fun inst =>
      inst ++ List.replicate (m - inst.length)
        (List.replicate ((inst.head?.map List.length).getD 0) (0 : ℝ)))
    some (trim_batch batch
      (if coords then max_seq_len.map (fun k => k * NUM_COORDS_PER_RES)
       else max_seq_len))

/-- Embedding of paired_collate_fn (collate.py lines 14-24): unzip the
instance triples and collate the sequences (sequences=True), the angles
(both flags False) and the coordinates (coords=True), each with
max_seq_len = MAX_SEQ_LEN.  Returns `none` where the Python function
raises (unpacking zip(*insts) of an empty list raises ValueError). -/
def paired_collate_fn
    (insts : List (List Int × List (List ℝ) × List (List ℝ))) :
    Option (List (List Int) × List (List (List ℝ)) × List (List (List ℝ))) :=
  if insts.isEmpty then none
  else
    match collate_fn_seq (insts.map (fun t => t.1)) false (some MAX_SEQ_LEN),
          collate_fn_arr (insts.map (fun t => t.2.1)) false (some MAX_SEQ_LEN),
          collate_fn_arr (insts.map (fun t => t.2.2)) true (some MAX_SEQ_LEN)
      with
    | some sequences, some angles, some coords => some (sequences, angles, coords)
    | _, _, _ => none

/-- The initial accumulator is bounded by a left fold of max. -/
theorem init_le_foldl_max (l : List Nat) : ∀ b : Nat, b ≤ l.foldl max b := by
  induction l with
  | nil => intro b; exact le_rfl
  | cons x xs ih =>
    intro b
    exact le_trans (le_max_left b x) (ih (max b x))

/-- Every member of a list is bounded by a left fold of max. -/
theorem mem_le_foldl_max (l : List Nat) : ∀ (b : Nat), ∀ n ∈ l, n ≤ l.foldl max b := by
  induction l with
  | nil => intro b n hn; cases hn
  | cons x xs ih =>
    intro b n hn
    rcases List.mem_cons.mp hn with h1 | h2
    · subst h1
      exact le_trans (le_max_right b n) (init_le_foldl_max xs (max b n))
    · exact ih (max b x) n h2

/-- Every instance's length is bounded by `max_batch_len`. -/
theorem le_max_batch_len {α : Type} (insts : List (List α)) (inst : List α)
    (h : inst ∈ insts) : inst.length ≤ max_batch_len insts :=
  mem_le_foldl_max (insts.map List.length) 0 inst.length (List.mem_map_of_mem _ h)

/-- C10: collate_fn raises on an empty list of instances, for every
combination of the coords and max_seq_len arguments and on both the
sequences=True and the sequences=False paths: max(len(inst) for inst in
insts) raises ValueError before anything else runs. -/
theorem collate_fn_empty_insts_fails (coords : Bool) (max_seq_len : Option Nat) :
    collate_fn_seq [] coords max_seq_len = none ∧
    collate_fn_arr [] coords max_seq_len = none := by
  constructor <;> rfl

/-- Evaluation of collate_fn_seq on a non-empty batch with a numeric
max_seq_len: pad every instance to the batch maximum, then truncate. -/
theorem collate_fn_seq_some (insts : List (List Int)) (h : insts ≠ [])
    (coords : Bool) (k : Nat) :
    collate_fn_seq insts coords (some k) =
      some ((insts.map (fun inst =>
        inst ++ List.replicate (max_batch_len insts - inst.length) VOCAB_pad_id)).map
        (List.take (if coords then k * NUM_COORDS_PER_RES else k))) := by
  obtain ⟨x, xs, rfl⟩ := List.exists_cons_of_ne_nil h
  cases coords <;> simp [collate_fn_seq, trim_batch]

/-- Evaluation of collate_fn_seq on a non-empty batch with max_seq_len=None
and coords=False: pad every instance to the batch maximum, no truncation. -/
theorem collate_fn_seq_none (insts : List (List Int)) (h : insts ≠ []) :
    collate_fn_seq insts false none =
      some (insts.map (fun inst =>
        inst ++ List.replicate (max_batch_len insts - inst.length) VOCAB_pad_id)) := by
  obtain ⟨x, xs, rfl⟩ := List.exists_cons_of_ne_nil h
  simp [collate_fn_seq, trim_batch]

/-- Evaluation of collate_fn_arr on a non-empty batch with a numeric
max_seq_len: pad every instance to the batch maximum with zero rows, then
truncate. -/
theorem collate_fn_arr_some (insts : List (List (List ℝ))) (h : insts ≠ [])
    (coords : Bool) (k : Nat) :
    collate_fn_arr insts coords (some k) =
      some ((insts.map (fun inst =>
        inst ++ List.replicate (max_batch_len insts - inst.length)
          (List.replicate ((inst.head?.map List.length).getD 0) (0 : ℝ)))).map
        (List.take (if coords then k * NUM_COORDS_PER_RES else k))) := by
  obtain ⟨x, xs, rfl⟩ := List.exists_cons_of_ne_nil h
  cases coords <;> simp [collate_fn_arr, trim_batch]

/-- Evaluation of collate_fn_arr on a non-empty batch with max_seq_len=None
and coords=False. -/
theorem collate_fn_arr_none (insts : List (List (List ℝ))) (h : insts ≠ []) :
    collate_fn_arr insts false none =
      some (insts.map (fun inst =>
        inst ++ List.replicate (max_batch_len insts - inst.length)
          (List.replicate ((inst.head?.map List.length).getD 0) (0 : ℝ)))) := by
  obtain ⟨x, xs, rfl⟩ := List.exists_cons_of_ne_nil h
  simp [collate_fn_arr, trim_batch]

/-- A padded instance has exactly the batch-maximum length. -/
theorem padded_length {α : Type} (insts : List (List α)) (inst : List α)
    (h : inst ∈ insts) (pad : α) :
    (inst ++ List.replicate (max_batch_len insts - inst.length) pad).length =
      max_batch_len insts := by
  rw [List.length_append, List.length_replicate]
  exact Nat.add_sub_cancel' (le_max_batch_len insts inst h)

/-- C1: on a non-empty list of instances (with the default max_seq_len=None,
so that no truncation applies), collate_fn returns the batch whose row i is
instance i followed by pad values: VOCAB.pad_id on the sequences=True path
and zero rows of the common instance width otherwise; every row of the
batch has the maximum instance length of the batch. -/
theorem collate_fn_pads_to_batch_max (sinsts : List (List Int))
    (ainsts : List (List (List ℝ))) (w : Nat)
    (hs : sinsts ≠ []) (ha : ainsts ≠ [])
    (hw : ∀ inst ∈ ainsts, inst ≠ [] ∧ ∀ r ∈ inst, r.length = w) :
    (∃ bs, collate_fn_seq sinsts false none = some bs ∧
      bs = sinsts.map (fun inst =>
        inst ++ List.replicate (max_batch_len sinsts - inst.length) VOCAB_pad_id) ∧
      ∀ row ∈ bs, row.length = max_batch_len sinsts) ∧
    (∃ ba, collate_fn_arr ainsts false none = some ba ∧
      ba = ainsts.map (fun inst =>
        inst ++ List.replicate (max_batch_len ainsts - inst.length)
          (List.replicate w (0 : ℝ))) ∧
      (∀ row ∈ ba, row.length = max_batch_len ainsts) ∧
      ∀ row ∈ ba, ∀ r ∈ row, r.length = w) := by
  constructor
  · refine ⟨_, collate_fn_seq_none sinsts hs, rfl, ?_⟩
    intro row hrow
    obtain ⟨inst, hinst, rfl⟩ := List.mem_map.mp hrow
    exact padded_length sinsts inst hinst _
  · have hpad : ainsts.map (fun inst =>
        inst ++ List.replicate (max_batch_len ainsts - inst.length)
          (List.replicate ((inst.head?.map List.length).getD 0) (0 : ℝ))) =
        ainsts.map (fun inst =>
        inst ++ List.replicate (max_batch_len ainsts - inst.length)
          (List.replicate w (0 : ℝ))) := by
      refine List.map_congr_left ?_
      intro inst hinst
      obtain ⟨hne, hrows⟩ := hw inst hinst
      obtain ⟨r, rs, rfl⟩ := List.exists_cons_of_ne_nil hne
      have : r.length = w := hrows r (List.mem_cons_self r rs)
      simp [this]
    refine ⟨_, (collate_fn_arr_none ainsts ha).trans (congrArg some hpad), rfl, ?_, ?_⟩
    · intro row hrow
      obtain ⟨inst, hinst, rfl⟩ := List.mem_map.mp hrow
      exact padded_length ainsts inst hinst _
    · intro row hrow r hr
      obtain ⟨inst, hinst, rfl⟩ := List.mem_map.mp hrow
      rcases List.mem_append.mp hr with h1 | h2
      · exact (hw inst hinst).2 r h1
      · rw [List.eq_of_mem_replicate h2]
        exact List.length_replicate w 0

/-- Witness for C1 at a concrete batch. -/
theorem collate_fn_pads_to_batch_max_witness :
    (([[5]] : List (List Int)) ≠ [] ∧ ([[[0]]] : List (List (List ℝ))) ≠ [] ∧
      (∀ inst ∈ ([[[0]]] : List (List (List ℝ))), inst ≠ [] ∧
        ∀ r ∈ inst, r.length = 1)) ∧
    ((∃ bs, collate_fn_seq [[5]] false none = some bs ∧
      bs = ([[5]] : List (List Int)).map (fun inst =>
        inst ++ List.replicate (max_batch_len [[5]] - inst.length) VOCAB_pad_id) ∧
      ∀ row ∈ bs, row.length = max_batch_len ([[5]] : List (List Int))) ∧
    (∃ ba, collate_fn_arr [[[0]]] false none = some ba ∧
      ba = ([[[0]]] : List (List (List ℝ))).map (fun inst =>
        inst ++ List.replicate (max_batch_len [[[0]]] - inst.length)
          (List.replicate 1 (0 : ℝ))) ∧
      (∀ row ∈ ba, row.length = max_batch_len ([[[0]]] : List (List (List ℝ)))) ∧
      ∀ row ∈ ba, ∀ r ∈ row, r.length = 1)) :=
  ⟨⟨by simp, by simp, by simp⟩,
    collate_fn_pads_to_batch_max [[5]] [[[0]]] 1 (by simp) (by simp) (by simp)⟩

/-- Every row of a truncated batch is at most the truncation bound long. -/
theorem rows_of_take {α : Type} (K : Nat) (l : List (List α)) :
    ∀ row ∈ l.map (List.take K), row.length ≤ K := by
  intro row h
  obtain ⟨r, _, rfl⟩ := List.mem_map.mp h
  exact List.length_take_le K r

/-- Evaluation of paired_collate_fn on a non-empty list of instance
triples. -/
theorem paired_collate_fn_eq
    (insts : List (List Int × List (List ℝ) × List (List ℝ))) (hi : insts ≠ []) :
    paired_collate_fn insts = some (
      ((insts.map (fun t => t.1)).map (fun inst =>
        inst ++ List.replicate
          (max_batch_len (insts.map (fun t => t.1)) - inst.length)
          VOCAB_pad_id)).map (List.take MAX_SEQ_LEN),
      ((insts.map (fun t => t.2.1)).map (fun inst =>
        inst ++ List.replicate
          (max_batch_len (insts.map (fun t => t.2.1)) - inst.length)
          (List.replicate ((inst.head?.map List.length).getD 0) (0 : ℝ)))).map
        (List.take MAX_SEQ_LEN),
      ((insts.map (fun t => t.2.2)).map (fun inst =>
        inst ++ List.replicate
          (max_batch_len (insts.map (fun t => t.2.2)) - inst.length)
          (List.replicate ((inst.head?.map List.length).getD 0) (0 : ℝ)))).map
        (List.take (MAX_SEQ_LEN * NUM_COORDS_PER_RES))) := by
  have h1 : insts.map (fun t => t.1) ≠ [] := by simpa [List.map_eq_nil_iff] using hi
  have h2 : insts.map (fun t => t.2.1) ≠ [] := by simpa [List.map_eq_nil_iff] using hi
  have h3 : insts.map (fun t => t.2.2) ≠ [] := by simpa [List.map_eq_nil_iff] using hi
  rw [paired_collate_fn.eq_def]
  rw [List.isEmpty_eq_false.mpr hi]
  rw [collate_fn_seq_some _ h1, collate_fn_arr_some _ h2, collate_fn_arr_some _ h3]
  simp

/-- C2: with a numeric max_seq_len, collate_fn truncates every row of the
batch to at most max_seq_len entries (at most max_seq_len *
NUM_COORDS_PER_RES when coords=True), and paired_collate_fn applies this
with max_seq_len = MAX_SEQ_LEN = 500 to all three of its outputs. -/
theorem collate_fn_truncates (sinsts : List (List Int))
    (ainsts : List (List (List ℝ))) (k : Nat)
    (insts : List (List Int × List (List ℝ) × List (List ℝ)))
    (hs : sinsts ≠ []) (ha : ainsts ≠ []) (hi : insts ≠ []) :
    (∃ bs, collate_fn_seq sinsts false (some k) = some bs ∧
      ∀ row ∈ bs, row.length ≤ k) ∧
    (∃ ba, collate_fn_arr ainsts true (some k) = some ba ∧
      ∀ row ∈ ba, row.length ≤ k * NUM_COORDS_PER_RES) ∧
    MAX_SEQ_LEN = 500 ∧
    (∃ s a c, paired_collate_fn insts = some (s, a, c) ∧
      (∀ row ∈ s, row.length ≤ MAX_SEQ_LEN) ∧
      (∀ row ∈ a, row.length ≤ MAX_SEQ_LEN) ∧
      (∀ row ∈ c, row.length ≤ MAX_SEQ_LEN * NUM_COORDS_PER_RES)) := by
  refine ⟨⟨_, collate_fn_seq_some sinsts hs false k, ?_⟩,
    ⟨_, collate_fn_arr_some ainsts ha true k, ?_⟩, rfl,
    ⟨_, _, _, paired_collate_fn_eq insts hi, ?_, ?_, ?_⟩⟩
  · exact rows_of_take k _
  · exact rows_of_take (k * NUM_COORDS_PER_RES) _
  · exact rows_of_take MAX_SEQ_LEN _
  · exact rows_of_take MAX_SEQ_LEN _
  · exact rows_of_take (MAX_SEQ_LEN * NUM_COORDS_PER_RES) _

/-- Witness for C2 at a concrete batch and bound. -/
theorem collate_fn_truncates_witness :
    (([[5], [6, 7]] : List (List Int)) ≠ [] ∧
      ([[[0]]] : List (List (List ℝ))) ≠ [] ∧
      ([(([5] : List Int), ([[0]] : List (List ℝ)), ([[0]] : List (List ℝ)))] ≠ [])) ∧
    ((∃ bs, collate_fn_seq [[5], [6, 7]] false (some 1) = some bs ∧
      ∀ row ∈ bs, row.length ≤ 1) ∧
    (∃ ba, collate_fn_arr [[[0]]] true (some 1) = some ba ∧
      ∀ row ∈ ba, row.length ≤ 1 * NUM_COORDS_PER_RES) ∧
    MAX_SEQ_LEN = 500 ∧
    (∃ s a c,
      paired_collate_fn [(([5] : List Int), ([[0]] : List (List ℝ)),
        ([[0]] : List (List ℝ)))] = some (s, a, c) ∧
      (∀ row ∈ s, row.length ≤ MAX_SEQ_LEN) ∧
      (∀ row ∈ a, row.length ≤ MAX_SEQ_LEN) ∧
      (∀ row ∈ c, row.length ≤ MAX_SEQ_LEN * NUM_COORDS_PER_RES))) :=
  ⟨⟨by simp, by simp, by simp⟩,
    collate_fn_truncates [[5], [6, 7]] [[[0]]] 1 _ (by simp) (by simp) (by simp)⟩

/-- Multiplying by a constant distributes over a left fold of max. -/
theorem foldl_max_map_mul (c : Nat) (ns : List Nat) : ∀ (acc : Nat),
    (ns.map (fun n => c * n)).foldl max (c * acc) = c * ns.foldl max acc := by
  induction ns with
  | nil => intro acc; rfl
  | cons n ns ih =>
    intro acc
    simp only [List.map_cons, List.foldl_cons]
    rw [Nat.mul_max_mul_left c acc n]
    exact ih (max acc n)

/-- C5: when each coordinate instance has length NUM_COORDS_PER_RES times
the corresponding sequence length, the batches returned by
paired_collate_fn satisfy coords.shape[1] = NUM_COORDS_PER_RES *
sequences.shape[1]: every coordinate row is exactly NUM_COORDS_PER_RES
times as long as every sequence row, so truncation never splits a
residue's group of NUM_COORDS_PER_RES coordinate rows. -/
theorem paired_collate_fn_residue_alignment
    (insts : List (List Int × List (List ℝ) × List (List ℝ))) (hi : insts ≠ [])
    (hc : ∀ t ∈ insts, t.2.2.length = NUM_COORDS_PER_RES * t.1.length) :
    ∃ s a c, paired_collate_fn insts = some (s, a, c) ∧
      ∀ srow ∈ s, ∀ crow ∈ c,
        crow.length = NUM_COORDS_PER_RES * srow.length := by
  refine ⟨_, _, _, paired_collate_fn_eq insts hi, ?_⟩
  have hmc : max_batch_len (insts.map (fun t => t.2.2)) =
      NUM_COORDS_PER_RES * max_batch_len (insts.map (fun t => t.1)) := by
    unfold max_batch_len
    rw [List.map_map, List.map_map]
    have hlist : insts.map (List.length ∘ fun t => t.2.2) =
        (insts.map (List.length ∘ fun t => t.1)).map
          (fun n => NUM_COORDS_PER_RES * n) := by
      rw [List.map_map]
      exact List.map_congr_left (fun t ht => hc t ht)
    rw [hlist]
    have := foldl_max_map_mul NUM_COORDS_PER_RES
      (insts.map (List.length ∘ fun t => t.1)) 0
    simpa using this
  intro srow hsrow crow hcrow
  obtain ⟨prow, hprow, rfl⟩ := List.mem_map.mp hsrow
  obtain ⟨inst, hinst, rfl⟩ := List.mem_map.mp hprow
  obtain ⟨qrow, hqrow, rfl⟩ := List.mem_map.mp hcrow
  obtain ⟨cinst, hcinst, rfl⟩ := List.mem_map.mp hqrow
  rw [List.length_take, List.length_take,
    padded_length _ inst hinst, padded_length _ cinst hcinst, hmc,
    Nat.mul_comm MAX_SEQ_LEN NUM_COORDS_PER_RES,
    Nat.mul_min_mul_left]

/-- Witness for C5 at a concrete batch of one full-length instance. -/
theorem paired_collate_fn_residue_alignment_witness :
    (([(([5] : List Int), ([[0]] : List (List ℝ)),
        (List.replicate 14 [(0 : ℝ)]))] ≠ []) ∧
      (∀ t ∈ [(([5] : List Int), ([[0]] : List (List ℝ)),
        (List.replicate 14 [(0 : ℝ)]))],
        t.2.2.length = NUM_COORDS_PER_RES * t.1.length)) ∧
    (∃ s a c,
      paired_collate_fn [(([5] : List Int), ([[0]] : List (List ℝ)),
        (List.replicate 14 [(0 : ℝ)]))] = some (s, a, c) ∧
      ∀ srow ∈ s, ∀ crow ∈ c,
        crow.length = NUM_COORDS_PER_RES * srow.length) :=
  ⟨⟨by simp, by simp [NUM_COORDS_PER_RES]⟩,
    paired_collate_fn_residue_alignment _ (by simp)
      (by simp [NUM_COORDS_PER_RES])⟩

/-- A coordinate row: one atom's (x, y, z) position. -/
abbrev Vec3 : Type := ℝ × ℝ × ℝ

/-- Dot product of two coordinate rows. -/
def dot3 (u v : Vec3) : ℝ := u.1 * v.1 + u.2.1 * v.2.1 + u.2.2 * v.2.2

/-- x.pow(2).sum(dim=-1): squared Euclidean norm of a coordinate row. -/
def sqnorm3 (u : Vec3) : ℝ := dot3 u u

/-- Componentwise difference of two coordinate rows. -/
def sub3 (u v : Vec3) : Vec3 := (u.1 - v.1, u.2.1 - v.2.1, u.2.2 - v.2.2)

/-- Embedding of pairwise_internal_dist (losses.py lines 76-99): entry
(i, j) is sqrt(clamp_min(norm(x_i)^2 + norm(x_j)^2 - 2 dot(x_i, x_j),
1e-30)), the expansion computed by addmm followed by clamp_min_ and
sqrt_. -/
noncomputable def pairwise_internal_dist (x : List Vec3) : List (List ℝ) :=
  x.map (fun xi => x.map (fun xj =>
    Real.sqrt (max (sqnorm3 xi + sqnorm3 xj - 2 * dot3 xi xj) 1e-30)))

/-- torch.triu_indices(rows, cols, offset=1): the index pairs (i, j) with
i < j, in row-major order. -/
def triu_pairs (rows cols : Nat) : List (Nat × Nat) :=
  (List.range rows).flatMap (fun i =>
    ((List.range cols).filter (fun j => i < j)).map (fun j => (i, j)))

/-- Matrix entry m[i][j], out-of-range entries defaulting to 0. -/
def mat_get (m : List (List ℝ)) (i j : Nat) : ℝ := (m.getD i []).getD j 0

/-- torch.nn.functional.mse_loss with mean reduction on NaN-free real
tensors: the mean of the squared componentwise differences. -/
noncomputable def mse_loss_real (x y : List ℝ) : ℝ :=
  ((x.zip y).map (fun q => (q.1 - q.2) ^ 2)).sum / x.length

/-- Embedding of drmsd (losses.py lines 46-67): the square root of the MSE
between the strictly upper-triangular entries of the two pairwise distance
matrices. -/
noncomputable def drmsd (a b : List Vec3) : ℝ :=
  let a_ := pairwise_internal_dist a
  let b_ := pairwise_internal_dist b
  let i := triu_pairs a_.length ((a_.getD 0 []).length)
  Real.sqrt (mse_loss_real (i.map (fun p => mat_get a_ p.1 p.2))
    (i.map (fun p => mat_get b_ p.1 p.2)))

/-- The Euclidean distance between two coordinate rows (claim side). -/
noncomputable def euclid_dist (u v : Vec3) : ℝ := Real.sqrt (sqnorm3 (sub3 u v))

/-- Claim side of C3: the square root of the mean, over strictly
upper-triangular index pairs, of the squared differences between the
pairwise Euclidean distance matrices of a and b. -/
noncomputable def drmsd_spec (a b : List Vec3) : ℝ :=
  Real.sqrt ((((triu_pairs a.length a.length).map (fun p =>
    (euclid_dist (a.getD p.1 ((0 : ℝ), (0 : ℝ), (0 : ℝ)))
        (a.getD p.2 ((0 : ℝ), (0 : ℝ), (0 : ℝ))) -
     euclid_dist (b.getD p.1 ((0 : ℝ), (0 : ℝ), (0 : ℝ)))
        (b.getD p.2 ((0 : ℝ), (0 : ℝ), (0 : ℝ)))) ^ 2)).sum) /
    (triu_pairs a.length a.length).length)

/-- The pairwise distance matrix of x has x.length rows. -/
theorem pid_length (x : List Vec3) :
    (pairwise_internal_dist x).length = x.length := List.length_map x _

/-- The first row of the pairwise distance matrix of x has x.length
entries (and a matrix with no rows has 0 columns). -/
theorem pid_row_length (x : List Vec3) :
    ((pairwise_internal_dist x).getD 0 []).length = x.length := by
  cases x with
  | nil => rfl
  | cons v vs => simp [pairwise_internal_dist]

/-- Membership in the strictly upper-triangular index list. -/
theorem triu_pairs_mem {rows cols : Nat} {p : Nat × Nat}
    (h : p ∈ triu_pairs rows cols) : p.1 < rows ∧ p.1 < p.2 ∧ p.2 < cols := by
  obtain ⟨i, hi, hp⟩ := List.mem_flatMap.mp h
  obtain ⟨j, hj, rfl⟩ := List.mem_map.mp hp
  obtain ⟨hj1, hj2⟩ := List.mem_filter.mp hj
  exact ⟨List.mem_range.mp hi, by simpa using hj2, List.mem_range.mp hj1⟩

/-- Entry (i, j) of the pairwise distance matrix, for in-range indices. -/
theorem pid_get (x : List Vec3) (i j : Nat) (hi : i < x.length)
    (hj : j < x.length) :
    mat_get (pairwise_internal_dist x) i j =
      Real.sqrt (max (sqnorm3 x[i] + sqnorm3 x[j] - 2 * dot3 x[i] x[j])
        1e-30) := by
  unfold mat_get pairwise_internal_dist
  have h1 : (x.map (fun xi => x.map (fun xj =>
      Real.sqrt (max (sqnorm3 xi + sqnorm3 xj - 2 * dot3 xi xj) 1e-30)))).getD
        i [] = x.map (fun xj =>
      Real.sqrt (max (sqnorm3 x[i] + sqnorm3 xj - 2 * dot3 x[i] xj) 1e-30)) := by
    rw [List.getD_eq_getElem _ _ (by simpa using hi), List.getElem_map]
  rw [h1, List.getD_eq_getElem _ _ (by simpa using hj), List.getElem_map]

/-- The squared distance expansion used by pairwise_internal_dist. -/
theorem sqnorm_expand (u v : Vec3) :
    sqnorm3 u + sqnorm3 v - 2 * dot3 u v = sqnorm3 (sub3 u v) := by
  unfold sqnorm3 dot3 sub3
  ring

/-- C3 counterexample: on coincident points the clamp_min(1e-30) inside
pairwise_internal_dist makes the computed distance 1e-15 instead of the
Euclidean 0, so drmsd differs from the root-mean-square difference of the
Euclidean distance matrices. -/
theorem drmsd_clamp_counterexample :
    drmsd [((0 : ℝ), (0 : ℝ), (0 : ℝ)), ((0 : ℝ), (0 : ℝ), (0 : ℝ))]
        [((0 : ℝ), (0 : ℝ), (0 : ℝ)), ((1 : ℝ), (0 : ℝ), (0 : ℝ))] ≠
      drmsd_spec [((0 : ℝ), (0 : ℝ), (0 : ℝ)), ((0 : ℝ), (0 : ℝ), (0 : ℝ))]
        [((0 : ℝ), (0 : ℝ), (0 : ℝ)), ((1 : ℝ), (0 : ℝ), (0 : ℝ))] := by
  have h30 : Real.sqrt 1e-30 = 1e-15 := by
    rw [show (1e-30 : ℝ) = (1e-15 : ℝ) ^ 2 by norm_num]
    exact Real.sqrt_sq (by norm_num)
  simp only [drmsd, drmsd_spec, mse_loss_real, pairwise_internal_dist, mat_get,
    euclid_dist, sqnorm3, dot3, sub3, triu_pairs]
  norm_num [List.range_succ]
  intro hcontra
  have h1 : Real.sqrt (1000000000000000000000000000000 : ℝ) = 1e15 := by
    rw [show (1000000000000000000000000000000 : ℝ) = (1e15 : ℝ) ^ 2 by norm_num]
    exact Real.sqrt_sq (by norm_num)
  rw [h1] at hcontra
  norm_num at hcontra

/-- C3 (amended): when every strictly-upper-triangular pair of points of a,
and of b, is at squared distance at least 1e-30 (so that the numerical
clamp inside pairwise_internal_dist is inactive), drmsd(a, b) is exactly
the square root of the mean squared difference between the pairwise
Euclidean distance matrices of a and b over the strictly upper-triangular
index pairs. -/
theorem drmsd_eq_euclidean_spec (a b : List Vec3) (hlen : a.length = b.length)
    (hA : ∀ p ∈ triu_pairs a.length a.length,
      1e-30 ≤ sqnorm3 (sub3 (a.getD p.1 ((0 : ℝ), (0 : ℝ), (0 : ℝ)))
        (a.getD p.2 ((0 : ℝ), (0 : ℝ), (0 : ℝ)))))
    (hB : ∀ p ∈ triu_pairs a.length a.length,
      1e-30 ≤ sqnorm3 (sub3 (b.getD p.1 ((0 : ℝ), (0 : ℝ), (0 : ℝ)))
        (b.getD p.2 ((0 : ℝ), (0 : ℝ), (0 : ℝ))))) :
    drmsd a b = drmsd_spec a b := by
  simp only [drmsd, drmsd_spec, mse_loss_real, pid_length, pid_row_length]
  rw [List.zip_map', List.map_map, List.length_map]
  congr 2
  refine congrArg List.sum (List.map_congr_left ?_)
  intro p hp
  obtain ⟨h1, h12, h2⟩ := triu_pairs_mem hp
  have hb1 : p.1 < b.length := hlen ▸ h1
  have hb2 : p.2 < b.length := hlen ▸ h2
  have ga1 : a.getD p.1 ((0 : ℝ), (0 : ℝ), (0 : ℝ)) = a[p.1] :=
    List.getD_eq_getElem a _ h1
  have ga2 : a.getD p.2 ((0 : ℝ), (0 : ℝ), (0 : ℝ)) = a[p.2] :=
    List.getD_eq_getElem a _ h2
  have gb1 : b.getD p.1 ((0 : ℝ), (0 : ℝ), (0 : ℝ)) = b[p.1] :=
    List.getD_eq_getElem b _ hb1
  have gb2 : b.getD p.2 ((0 : ℝ), (0 : ℝ), (0 : ℝ)) = b[p.2] :=
    List.getD_eq_getElem b _ hb2
  have hA' := hA p hp
  have hB' := hB p hp
  rw [ga1, ga2] at hA'
  rw [gb1, gb2] at hB'
  simp only [Function.comp]
  rw [pid_get a p.1 p.2 h1 h2, pid_get b p.1 p.2 hb1 hb2,
    sqnorm_expand, sqnorm_expand, max_eq_left hA', max_eq_left hB']
  unfold euclid_dist
  rw [ga1, ga2, gb1, gb2]

/-- Witness for C3 (amended) at a concrete pair of structures whose
pairwise distances all exceed the clamp threshold. -/
theorem drmsd_eq_euclidean_spec_witness :
    (([((0 : ℝ), (0 : ℝ), (0 : ℝ)), ((1 : ℝ), (0 : ℝ), (0 : ℝ))] :
        List Vec3).length =
      ([((0 : ℝ), (0 : ℝ), (0 : ℝ)), ((0 : ℝ), (2 : ℝ), (0 : ℝ))] :
        List Vec3).length ∧
      (∀ p ∈ triu_pairs 2 2,
        1e-30 ≤ sqnorm3 (sub3
          (([((0 : ℝ), (0 : ℝ), (0 : ℝ)), ((1 : ℝ), (0 : ℝ), (0 : ℝ))] :
            List Vec3).getD p.1 ((0 : ℝ), (0 : ℝ), (0 : ℝ)))
          (([((0 : ℝ), (0 : ℝ), (0 : ℝ)), ((1 : ℝ), (0 : ℝ), (0 : ℝ))] :
            List Vec3).getD p.2 ((0 : ℝ), (0 : ℝ), (0 : ℝ))))) ∧
      (∀ p ∈ triu_pairs 2 2,
        1e-30 ≤ sqnorm3 (sub3
          (([((0 : ℝ), (0 : ℝ), (0 : ℝ)), ((0 : ℝ), (2 : ℝ), (0 : ℝ))] :
            List Vec3).getD p.1 ((0 : ℝ), (0 : ℝ), (0 : ℝ)))
          (([((0 : ℝ), (0 : ℝ), (0 : ℝ)), ((0 : ℝ), (2 : ℝ), (0 : ℝ))] :
            List Vec3).getD p.2 ((0 : ℝ), (0 : ℝ), (0 : ℝ)))))) ∧
    drmsd [((0 : ℝ), (0 : ℝ), (0 : ℝ)), ((1 : ℝ), (0 : ℝ), (0 : ℝ))]
        [((0 : ℝ), (0 : ℝ), (0 : ℝ)), ((0 : ℝ), (2 : ℝ), (0 : ℝ))] =
      drmsd_spec [((0 : ℝ), (0 : ℝ), (0 : ℝ)), ((1 : ℝ), (0 : ℝ), (0 : ℝ))]
        [((0 : ℝ), (0 : ℝ), (0 : ℝ)), ((0 : ℝ), (2 : ℝ), (0 : ℝ))] := by
  have hA : ∀ p ∈ triu_pairs 2 2,
      1e-30 ≤ sqnorm3 (sub3
        (([((0 : ℝ), (0 : ℝ), (0 : ℝ)), ((1 : ℝ), (0 : ℝ), (0 : ℝ))] :
          List Vec3).getD p.1 ((0 : ℝ), (0 : ℝ), (0 : ℝ)))
        (([((0 : ℝ), (0 : ℝ), (0 : ℝ)), ((1 : ℝ), (0 : ℝ), (0 : ℝ))] :
          List Vec3).getD p.2 ((0 : ℝ), (0 : ℝ), (0 : ℝ)))) := by
    intro p hp
    have : p = (0, 1) := by
      have h := hp
      rw [show triu_pairs 2 2 = [(0, 1)] from rfl] at h
      simpa using h
    subst this
    norm_num [sqnorm3, sub3, dot3]
  have hB : ∀ p ∈ triu_pairs 2 2,
      1e-30 ≤ sqnorm3 (sub3
        (([((0 : ℝ), (0 : ℝ), (0 : ℝ)), ((0 : ℝ), (2 : ℝ), (0 : ℝ))] :
          List Vec3).getD p.1 ((0 : ℝ), (0 : ℝ), (0 : ℝ)))
        (([((0 : ℝ), (0 : ℝ), (0 : ℝ)), ((0 : ℝ), (2 : ℝ), (0 : ℝ))] :
          List Vec3).getD p.2 ((0 : ℝ), (0 : ℝ), (0 : ℝ)))) := by
    intro p hp
    have : p = (0, 1) := by
      have h := hp
      rw [show triu_pairs 2 2 = [(0, 1)] from rfl] at h
      simpa using h
    subst this
    norm_num [sqnorm3, sub3, dot3]
  exact ⟨⟨rfl, hA, hB⟩,
    drmsd_eq_euclidean_spec _ _ rfl hA hB⟩

/-- Commuting the two argument batches of the real MSE over a common index
list leaves the value unchanged. -/
theorem mse_loss_real_comm_maps (idx : List (Nat × Nat))
    (f g : Nat × Nat → ℝ) :
    mse_loss_real (idx.map f) (idx.map g) =
      mse_loss_real (idx.map g) (idx.map f) := by
  unfold mse_loss_real
  rw [List.zip_map', List.zip_map', List.map_map, List.map_map,
    List.length_map, List.length_map]
  congr 1
  refine congrArg List.sum (List.map_congr_left ?_)
  intro p _
  simp only [Function.comp]
  ring

/-- C8: drmsd is symmetric in its two arguments and vanishes on identical
structures. -/
theorem drmsd_symm_self (a b : List Vec3) (hlen : a.length = b.length)
    (_h2 : 2 ≤ a.length) :
    drmsd a b = drmsd b a ∧ drmsd a a = 0 := by
  constructor
  · simp only [drmsd, pid_length, pid_row_length]
    rw [hlen, mse_loss_real_comm_maps]
  · simp only [drmsd, pid_length, pid_row_length, mse_loss_real]
    rw [List.zip_map', List.map_map]
    have hz : ((triu_pairs a.length a.length).map
        ((fun q : ℝ × ℝ => (q.1 - q.2) ^ 2) ∘
          (fun p : Nat × Nat => (mat_get (pairwise_internal_dist a) p.1 p.2,
            mat_get (pairwise_internal_dist a) p.1 p.2)))).sum = 0 := by
      refine List.sum_eq_zero ?_
      intro x hx
      obtain ⟨p, _, rfl⟩ := List.mem_map.mp hx
      simp [Function.comp]
    rw [hz, zero_div, Real.sqrt_zero]

/-- Witness for C8 at a concrete pair of two-point structures. -/
theorem drmsd_symm_self_witness :
    (([((0 : ℝ), (0 : ℝ), (0 : ℝ)), ((1 : ℝ), (0 : ℝ), (0 : ℝ))] :
        List Vec3).length =
      ([((0 : ℝ), (0 : ℝ), (0 : ℝ)), ((0 : ℝ), (2 : ℝ), (0 : ℝ))] :
        List Vec3).length ∧
      2 ≤ ([((0 : ℝ), (0 : ℝ), (0 : ℝ)), ((1 : ℝ), (0 : ℝ), (0 : ℝ))] :
        List Vec3).length) ∧
    (drmsd [((0 : ℝ), (0 : ℝ), (0 : ℝ)), ((1 : ℝ), (0 : ℝ), (0 : ℝ))]
        [((0 : ℝ), (0 : ℝ), (0 : ℝ)), ((0 : ℝ), (2 : ℝ), (0 : ℝ))] =
      drmsd [((0 : ℝ), (0 : ℝ), (0 : ℝ)), ((0 : ℝ), (2 : ℝ), (0 : ℝ))]
        [((0 : ℝ), (0 : ℝ), (0 : ℝ)), ((1 : ℝ), (0 : ℝ), (0 : ℝ))] ∧
      drmsd [((0 : ℝ), (0 : ℝ), (0 : ℝ)), ((1 : ℝ), (0 : ℝ), (0 : ℝ))]
        [((0 : ℝ), (0 : ℝ), (0 : ℝ)), ((1 : ℝ), (0 : ℝ), (0 : ℝ))] = 0) :=
  ⟨⟨rfl, by norm_num⟩, drmsd_symm_self _ _ rfl (by norm_num)⟩

/-- A tensor scalar that may be NaN: `none` stands for NaN. -/
abbrev RN : Type := Option ℝ

/-- Scalar wrap step of angle_diff (losses.py lines 129-135): subtract 2*pi
when the error exceeds pi, then add 2*pi when the (already updated) error
is below -pi.  The two masked updates of the source run in sequence, so
the second test sees the first update's result; NaN compares false with
everything, so a NaN entry is left as NaN (handled at the Option layer). -/
noncomputable def wrap_err (e : ℝ) : ℝ :=
  let e1 := if Real.pi < e then e - 2 * Real.pi else e
  if e1 < -Real.pi then e1 + 2 * Real.pi else e1

/-- Embedding of angle_diff (losses.py lines 129-135) on possibly-NaN
tensors, flattened to lists: elementwise true - pred followed by the
wrap-around correction; a NaN in either input yields a NaN output. -/
noncomputable def angle_diff (tru pred : List RN) : List RN :=
  (tru.zip pred).map (fun q =>
    match q.1, q.2 with
    | some t, some p => some (wrap_err (t - p))
    | _, _ => none)

/-- Boolean-mask indexing tensor[mask]: torch raises IndexError when the
mask length differs from the tensor length, modelled as `none`. -/
def mask_select {α : Type} (xs : List α) (mask : List Bool) : Option (List α) :=
  if xs.length = mask.length then
    some (((xs.zip mask).filter (fun q => q.2)).map (fun q => q.1))
  else none

/-- torch.nn.functional.mse_loss with mean reduction on possibly-NaN
inputs: the mean of the squared componentwise differences; any NaN
propagates, and the mean of an empty tensor is NaN. -/
noncomputable def mse_loss (input target : List RN) : RN :=
  if input.length = 0 then none
  else
    ((input.zip target).foldr (fun q acc =>
      match q.1, q.2, acc with
      | some x, some y, some s => some ((x - y) ^ 2 + s)
      | _, _, _ => none) (some 0)).map (fun s => s / (input.length : ℝ))

/-- Embedding of angle_mse (losses.py lines 102-120): select the positions
where the true tensor is non-NaN from both tensors, then apply mse_loss.
The outer Option is the exception layer of the two mask selections. -/
noncomputable def angle_mse (tru pred : List RN) : Option RN :=
  let ang_non_nans := tru.map (fun v => v.isSome)
  match mask_select pred ang_non_nans, mask_select tru ang_non_nans with
  | some ps, some ts => some (mse_loss ps ts)
  | _, _ => none

/-- torch.nanmean: the mean of the non-NaN entries; NaN when every entry is
NaN. -/
noncomputable def nanmean (xs : List RN) : RN :=
  if (xs.filterMap id).length = 0 then none
  else some ((xs.filterMap id).sum / ((xs.filterMap id).length : ℝ))

/-- Embedding of angle_mae (losses.py lines 123-126): nanmean of the
absolute values of angle_diff. -/
noncomputable def angle_mae (tru pred : List RN) : RN :=
  nanmean ((angle_diff tru pred).map (fun v => v.map (fun x => abs x)))

/-- Claim side of C6: the squared errors at the positions where both
tensors are non-NaN (under C6's hypothesis these are exactly the positions
where the true tensor is non-NaN). -/
def masked_sq_errors (tru pred : List RN) : List ℝ :=
  (tru.zip pred).filterMap (fun q =>
    match q.1, q.2 with
    | some t, some p => some ((p - t) ^ 2)
    | _, _ => none)

/-- Claim side of C7: the absolute wrapped differences at the positions
where the wrapped difference is non-NaN (both inputs non-NaN). -/
noncomputable def masked_abs_errors (tru pred : List RN) : List ℝ :=
  (tru.zip pred).filterMap (fun q =>
    match q.1, q.2 with
    | some t, some p => some (abs (wrap_err (t - p)))
    | _, _ => none)

/-- Selecting a list against the boolean image of an equal-length list
keeps exactly the entries at the positions the predicate accepts (first
components). -/
theorem zip_mask_fst {α β : Type} (g : α → Bool) :
    ∀ (t : List α) (p : List β), t.length = p.length →
    ((t.zip (t.map g)).filter (fun q => q.2)).map (fun q => q.1) =
      ((t.zip p).filter (fun q => g q.1)).map (fun q => q.1) := by
  intro t
  induction t with
  | nil => intro p _; rfl
  | cons x xs ih =>
    intro p hp
    cases p with
    | nil => simp at hp
    | cons y ys =>
      have hlen : xs.length = ys.length := by simpa using hp
      simp only [List.map_cons, List.zip_cons_cons, List.filter_cons]
      cases hgx : g x <;> simp [hgx, ih ys hlen]

/-- Selecting a second list against the boolean image of an equal-length
first list keeps exactly the entries at the positions the predicate
accepts on the first list (second components). -/
theorem zip_mask_snd {α β : Type} (g : α → Bool) :
    ∀ (t : List α) (p : List β), t.length = p.length →
    ((p.zip (t.map g)).filter (fun q => q.2)).map (fun q => q.1) =
      ((t.zip p).filter (fun q => g q.1)).map (fun q => q.2) := by
  intro t
  induction t with
  | nil =>
    intro p hp
    have : p = [] := List.length_eq_zero.mp hp.symm
    subst this
    rfl
  | cons x xs ih =>
    intro p hp
    cases p with
    | nil => simp at hp
    | cons y ys =>
      have hlen : xs.length = ys.length := by simpa using hp
      simp only [List.map_cons, List.zip_cons_cons, List.filter_cons]
      cases hgx : g x <;> simp [hgx, ih ys hlen]

/-- The running-sum fold of mse_loss evaluates to the plain sum of squared
differences when every paired entry is non-NaN. -/
theorem mse_fold_eq (l : List (RN × RN))
    (h : ∀ q ∈ l, q.1.isSome ∧ q.2.isSome) :
    l.foldr (fun q acc =>
      match q.1, q.2, acc with
      | some x, some y, some s => some ((x - y) ^ 2 + s)
      | _, _, _ => none) (some 0) =
      some ((l.map (fun q => ((q.1.getD 0) - (q.2.getD 0)) ^ 2)).sum) := by
  induction l with
  | nil => simp
  | cons q l ih =>
    obtain ⟨h1, h2⟩ := h q (List.mem_cons_self q l)
    obtain ⟨x, hx⟩ := Option.isSome_iff_exists.mp h1
    obtain ⟨y, hy⟩ := Option.isSome_iff_exists.mp h2
    rw [List.foldr_cons, ih (fun r hr => h r (List.mem_cons_of_mem q hr))]
    simp [hx, hy]

/-- The NaN-skipping filterMap of squared errors agrees with mapping over
the filtered pair list, when the second component is non-NaN wherever the
first is. -/
theorem filterMap_sq_eq (l : List (RN × RN))
    (h : ∀ q ∈ l, q.1.isSome → q.2.isSome) :
    l.filterMap (fun q =>
      match q.1, q.2 with
      | some t, some p => some ((p - t) ^ 2)
      | _, _ => none) =
      (l.filter (fun q => q.1.isSome)).map
        (fun q => ((q.2.getD 0) - (q.1.getD 0)) ^ 2) := by
  induction l with
  | nil => rfl
  | cons q l ih =>
    have ih' := ih (fun r hr => h r (List.mem_cons_of_mem q hr))
    rw [List.filterMap_cons, List.filter_cons]
    cases hq1 : q.1 with
    | none => simp [hq1, ih']
    | some tv =>
      have h2 : q.2.isSome := h q (List.mem_cons_self q l) (by simp [hq1])
      obtain ⟨pv, hpv⟩ := Option.isSome_iff_exists.mp h2
      simp [hq1, hpv, ih']

/-- C6: when the predicted tensor is non-NaN wherever the true tensor is,
angle_mse is exactly the mean squared error over the positions where the
true tensor is non-NaN; the NaN-padded entries of the true tensor do not
enter the result. -/
theorem angle_mse_masked (tru pred : List RN) (hlen : tru.length = pred.length)
    (hp : ∀ q ∈ tru.zip pred, q.1.isSome → q.2.isSome)
    (hpos : 0 < (masked_sq_errors tru pred).length) :
    angle_mse tru pred =
      some (some ((masked_sq_errors tru pred).sum /
        ((masked_sq_errors tru pred).length : ℝ))) := by
  have hmasked : masked_sq_errors tru pred =
      ((tru.zip pred).filter (fun q => q.1.isSome)).map
        (fun q => ((q.2.getD 0) - (q.1.getD 0)) ^ 2) :=
    filterMap_sq_eq (tru.zip pred) hp
  have hms_p : mask_select pred (tru.map (fun v => v.isSome)) =
      some (((tru.zip pred).filter (fun q => q.1.isSome)).map (fun q => q.2)) := by
    unfold mask_select
    rw [if_pos (by rw [List.length_map, hlen])]
    exact congrArg some (zip_mask_snd _ tru pred hlen)
  have hms_t : mask_select tru (tru.map (fun v => v.isSome)) =
      some (((tru.zip pred).filter (fun q => q.1.isSome)).map (fun q => q.1)) := by
    unfold mask_select
    rw [if_pos (by rw [List.length_map])]
    exact congrArg some (zip_mask_fst _ tru pred hlen)
  have hred : angle_mse tru pred = some (mse_loss
      (((tru.zip pred).filter (fun q => q.1.isSome)).map (fun q => q.2))
      (((tru.zip pred).filter (fun q => q.1.isSome)).map (fun q => q.1))) := by
    simp only [angle_mse]
    rw [hms_p, hms_t]
  rw [hred]
  have hsel_ne : (((tru.zip pred).filter (fun q => q.1.isSome)).map
      (fun q => q.2)).length ≠ 0 := by
    rw [List.length_map]
    rw [hmasked, List.length_map] at hpos
    omega
  have hall : ∀ r ∈ ((tru.zip pred).filter (fun q => q.1.isSome)).map
      (fun q => (q.2, q.1)), r.1.isSome ∧ r.2.isSome := by
    intro r hr
    obtain ⟨q, hq, rfl⟩ := List.mem_map.mp hr
    obtain ⟨hqz, hq1⟩ := List.mem_filter.mp hq
    exact ⟨hp q hqz hq1, hq1⟩
  unfold mse_loss
  rw [if_neg hsel_ne, List.zip_map', mse_fold_eq _ hall, List.map_map]
  have hmap : (((tru.zip pred).filter (fun q => q.1.isSome)).map
        ((fun q : RN × RN => ((q.1.getD 0) - (q.2.getD 0)) ^ 2) ∘
          (fun q : RN × RN => (q.2, q.1)))) =
      masked_sq_errors tru pred := by
    rw [hmasked]
    rfl
  rw [hmap, List.length_map, hmasked, List.length_map, Option.map_some']

/-- Witness for C6 at a concrete pair of tensors with a NaN pad in the
true tensor. -/
theorem angle_mse_masked_witness :
    (([some 1, none] : List RN).length = ([some 2, some 5] : List RN).length ∧
      (∀ q ∈ ([some 1, none] : List RN).zip ([some 2, some 5] : List RN),
        q.1.isSome → q.2.isSome) ∧
      0 < (masked_sq_errors [some 1, none] [some 2, some 5]).length) ∧
    angle_mse [some 1, none] [some 2, some 5] =
      some (some ((masked_sq_errors [some 1, none] [some 2, some 5]).sum /
        ((masked_sq_errors [some 1, none] [some 2, some 5]).length : ℝ))) := by
  have h1 : (∀ q ∈ ([some 1, none] : List RN).zip ([some 2, some 5] : List RN),
      q.1.isSome → q.2.isSome) := by
    intro q hq
    simp at hq
    rcases hq with rfl | rfl <;> simp
  have h2 : 0 < (masked_sq_errors [some 1, none] [some 2, some 5]).length := by
    simp [masked_sq_errors]
  exact ⟨⟨rfl, h1, h2⟩, angle_mse_masked _ _ rfl h1 h2⟩

/-- C7: angle_mae is the mean, over the entries where the wrapped
difference is non-NaN (both inputs non-NaN), of the absolute value of the
signed wrapped difference computed by angle_diff. -/
theorem angle_mae_masked (tru pred : List RN)
    (_hlen : tru.length = pred.length)
    (hpos : 0 < (masked_abs_errors tru pred).length) :
    angle_mae tru pred =
      some ((masked_abs_errors tru pred).sum /
        ((masked_abs_errors tru pred).length : ℝ)) := by
  have key : (((angle_diff tru pred).map
      (fun v => v.map (fun x => abs x))).filterMap id) =
      masked_abs_errors tru pred := by
    unfold angle_diff masked_abs_errors
    rw [List.map_map, List.filterMap_map]
    refine List.filterMap_congr ?_
    intro q _
    rcases q with ⟨t, p⟩
    rcases t with _ | tv <;> rcases p with _ | pv <;> rfl
  unfold angle_mae nanmean
  rw [key, if_neg (by omega)]

/-- Witness for C7 at a concrete pair of tensors with a NaN pad. -/
theorem angle_mae_masked_witness :
    (([some 1, none] : List RN).length = ([some 2, some 5] : List RN).length ∧
      0 < (masked_abs_errors [some 1, none] [some 2, some 5]).length) ∧
    angle_mae [some 1, none] [some 2, some 5] =
      some ((masked_abs_errors [some 1, none] [some 2, some 5]).sum /
        ((masked_abs_errors [some 1, none] [some 2, some 5]).length : ℝ)) := by
  have h2 : 0 < (masked_abs_errors [some 1, none] [some 2, some 5]).length := by
    simp [masked_abs_errors]
  exact ⟨⟨rfl, h2⟩, angle_mae_masked _ _ rfl h2⟩

/-- The scalar wrap of a difference of two angles in [-pi, pi] lands in
[-pi, pi] and differs from the raw difference by an integer multiple of
2*pi. -/
theorem wrap_into_range (x1 x2 : ℝ) (h1 : |x1| ≤ Real.pi)
    (h2 : |x2| ≤ Real.pi) :
    |wrap_err (x1 - x2)| ≤ Real.pi ∧
      ∃ k : ℤ, wrap_err (x1 - x2) = x1 - x2 + 2 * Real.pi * k := by
  have hpi := Real.pi_pos
  obtain ⟨h1a, h1b⟩ := abs_le.mp h1
  obtain ⟨h2a, h2b⟩ := abs_le.mp h2
  simp only [wrap_err]
  split_ifs with ha hb hb
  · constructor
    · exact absurd hb (by push_neg; linarith)
    · exact absurd hb (by push_neg; linarith)
  · refine ⟨abs_le.mpr ⟨by linarith, by linarith⟩, -1, ?_⟩
    push_cast
    ring
  · refine ⟨abs_le.mpr ⟨by linarith, by linarith⟩, 1, ?_⟩
    push_cast
    ring
  · refine ⟨abs_le.mpr ⟨by linarith, by linarith⟩, 0, ?_⟩
    push_cast
    ring

/-- C9: on equal-length tensors whose entries all lie in [-pi, pi],
angle_diff preserves the shape and produces at every position a value in
[-pi, pi] that is congruent to true - pred modulo 2*pi. -/
theorem angle_diff_wraps (t p : List RN) (hlen : t.length = p.length)
    (ht : ∀ v ∈ t, ∃ x : ℝ, v = some x ∧ |x| ≤ Real.pi)
    (hp : ∀ v ∈ p, ∃ x : ℝ, v = some x ∧ |x| ≤ Real.pi) :
    (angle_diff t p).length = t.length ∧
    ∀ i, i < t.length →
      ∃ x1 x2 y : ℝ, t.getD i none = some x1 ∧ p.getD i none = some x2 ∧
        (angle_diff t p).getD i none = some y ∧ |y| ≤ Real.pi ∧
        ∃ k : ℤ, y = x1 - x2 + 2 * Real.pi * k := by
  have hlen2 : (angle_diff t p).length = t.length := by
    unfold angle_diff
    rw [List.length_map, List.length_zip, hlen, min_self, ← hlen]
  refine ⟨hlen2, ?_⟩
  intro i hi
  have hip : i < p.length := hlen ▸ hi
  obtain ⟨x1, hx1, hb1⟩ := ht t[i] (List.getElem_mem hi)
  obtain ⟨x2, hx2, hb2⟩ := hp p[i] (List.getElem_mem hip)
  refine ⟨x1, x2, wrap_err (x1 - x2), ?_, ?_, ?_,
    (wrap_into_range x1 x2 hb1 hb2).1, (wrap_into_range x1 x2 hb1 hb2).2⟩
  · rw [List.getD_eq_getElem t none hi]
    exact hx1
  · rw [List.getD_eq_getElem p none hip]
    exact hx2
  · rw [List.getD_eq_getElem _ none (by rw [hlen2]; exact hi)]
    unfold angle_diff
    rw [List.getElem_map, List.getElem_zip, hx1, hx2]

/-- Witness for C9 at a concrete one-entry pair of angle tensors. -/
theorem angle_diff_wraps_witness :
    (([some 0] : List RN).length = ([some 0] : List RN).length ∧
      (∀ v ∈ ([some 0] : List RN), ∃ x : ℝ, v = some x ∧ |x| ≤ Real.pi)) ∧
    ((angle_diff [some 0] [some 0]).length = ([some 0] : List RN).length ∧
    ∀ i, i < ([some 0] : List RN).length →
      ∃ x1 x2 y : ℝ, ([some 0] : List RN).getD i none = some x1 ∧
        ([some 0] : List RN).getD i none = some x2 ∧
        (angle_diff [some 0] [some 0]).getD i none = some y ∧
        |y| ≤ Real.pi ∧
        ∃ k : ℤ, y = x1 - x2 + 2 * Real.pi * k) := by
  have hb : ∀ v ∈ ([some 0] : List RN), ∃ x : ℝ, v = some x ∧ |x| ≤ Real.pi := by
    intro v hv
    simp at hv
    subst hv
    exact ⟨0, rfl, by simp [Real.pi_nonneg]⟩
  exact ⟨⟨rfl, hb⟩, angle_diff_wraps _ _ rfl hb hb⟩

/-- NaN-propagating addition on possibly-NaN scalars. -/
noncomputable def RN.add : RN → RN → RN
  | some a, some b => some (a + b)
  | _, _ => none

/-- NaN-propagating subtraction on possibly-NaN scalars. -/
noncomputable def RN.sub : RN → RN → RN
  | some a, some b => some (a - b)
  | _, _ => none

/-- NaN-propagating multiplication on possibly-NaN scalars. -/
noncomputable def RN.mul : RN → RN → RN
  | some a, some b => some (a * b)
  | _, _ => none

/-- NaN-propagating square root. -/
noncomputable def RN.sqrt : RN → RN
  | some a => some (Real.sqrt a)
  | none => none

/-- NaN-propagating clamp_min. -/
noncomputable def RN.clampMin : RN → ℝ → RN
  | some a, c => some (max a c)
  | none, _ => none

/-- NaN-propagating division; division by zero produces a non-real float
(inf or nan), modelled as none. -/
noncomputable def RN.div : RN → RN → RN
  | some a, some b => if b = 0 then none else some (a / b)
  | _, _ => none

/-- A coordinate row whose components may be NaN. -/
abbrev RVec3 : Type := RN × RN × RN

/-- NaN-propagating dot product of two coordinate rows. -/
noncomputable def rdot3 (u v : RVec3) : RN :=
  RN.add (RN.add (RN.mul u.1 v.1) (RN.mul u.2.1 v.2.1)) (RN.mul u.2.2 v.2.2)

/-- NaN-propagating squared norm of a coordinate row. -/
noncomputable def rsqnorm3 (u : RVec3) : RN := rdot3 u u

/-- pairwise_internal_dist on possibly-NaN coordinate rows (losses.py
lines 76-99): the same clamp-and-sqrt expansion, with NaN propagating
through every arithmetic step. -/
noncomputable def pairwise_internal_dist_rn (x : List RVec3) : List (List RN) :=
  x.map (fun xi => x.map (fun xj =>
    RN.sqrt (RN.clampMin (RN.sub (RN.add (rsqnorm3 xi) (rsqnorm3 xj))
      (RN.mul (some 2) (rdot3 xi xj))) 1e-30)))

/-- drmsd on possibly-NaN coordinate rows (losses.py lines 46-67): square
root of the mse_loss between the strictly upper-triangular entries of the
two pairwise distance matrices. -/
noncomputable def drmsd_rn (a b : List RVec3) : RN :=
  let a_ := pairwise_internal_dist_rn a
  let b_ := pairwise_internal_dist_rn b
  let i := triu_pairs a_.length ((a_.getD 0 []).length)
  RN.sqrt (mse_loss (i.map (fun p => (a_.getD p.1 []).getD p.2 none))
    (i.map (fun p => (b_.getD p.1 []).getD p.2 none)))

/-- Embedding of _tile (losses.py lines 138-146) along dim 0:
a.repeat(n_tile) concatenates n_tile copies of a, and index_select with
order_index = concatenate([init_dim * arange(n_tile) + i for i in
range(init_dim)]) reads entry init_dim * k + i of the repetition for each
original position i and copy k, repeating each entry of a n_tile times in
place. -/
def tile0 {α : Type} (a : List α) (n_tile : Nat) : List α :=
  let rep := (List.replicate n_tile a).flatten
  let order := (List.range a.length).flatMap (fun i =>
    (List.range n_tile).map (fun k => a.length * k + i))
  order.filterMap (fun idx => rep[idx]?)

/-- torch.isnan(row).all(axis=-1): every component of the row is NaN. -/
def is_all_nan (r : RVec3) : Bool := r.1.isNone && r.2.1.isNone && r.2.2.isNone

/-- Loop body of compute_batch_drmsd (losses.py lines 27-43) for one
(pred, true, seq) triple: build the batch-padding mask by tiling (s != 20)
NUM_COORDS_PER_RES times, drop the padded rows from the TRUE coordinates
only, compute the all-NaN atom mask on the filtered true coordinates, drop
those atoms from the filtered true coordinates and from the UNfiltered
predicted coordinates (whose length still counts the padded rows), and
score drmsd(tc, pc) / (len(tc) // NUM_COORDS_PER_RES).  Each boolean mask
indexing raises (none) when the mask length mismatches the tensor. -/
noncomputable def protein_drmsd (pc tc : List RVec3) (s : List Int) : Option RN :=
  let batch_padding := tile0 (s.map (fun x => decide (x ≠ 20))) NUM_COORDS_PER_RES
  match mask_select tc batch_padding with
  | none => none
  | some tc1 =>
    let missing_atoms := tc1.map is_all_nan
    match mask_select tc1 (missing_atoms.map (fun b => !b)),
          mask_select pc (missing_atoms.map (fun b => !b)) with
    | some tc2, some pc2 =>
      some (RN.div (drmsd_rn tc2 pc2)
        (some ((tc2.length / NUM_COORDS_PER_RES : Nat) : ℝ)))
    | _, _ => none

/-- Embedding of compute_batch_drmsd (losses.py lines 10-43): fold the
per-protein scores over zip(pred_coordinates, true_coordinates, seq),
accumulating drmsds from torch.tensor(0.0); the final .mean() of the
0-dimensional accumulator is the accumulator itself.  Any exception in a
loop iteration aborts the call (outer none). -/
noncomputable def compute_batch_drmsd
    (true_coordinates pred_coordinates : List (List RVec3))
    (seq : List (List Int)) : Option RN :=
  (pred_coordinates.zip (true_coordinates.zip seq)).foldl
    (fun acc t =>
      match acc, protein_drmsd t.1 t.2.1 t.2.2 with
      | some a, some d => some (RN.add a d)
      | _, _ => none) (some (some 0))

/-- C4 failing input: a single-protein batch whose two-residue sequence
ends in the padding token 20, with well-shaped 28-row (= 2 *
NUM_COORDS_PER_RES) true and predicted coordinate tensors.  The code
removes the 14 padding rows from the true coordinates only, so the
14-entry missing-atom mask is then applied to the still-28-row predicted
coordinates: torch raises IndexError (modelled none) and no DRMSD is
computed, although the claim describes a successful masked score. -/
theorem compute_batch_drmsd_padding_error :
    (List.replicate 28 ((some 0, some 0, some 0) : RVec3)).length =
      NUM_COORDS_PER_RES * ([1, 20] : List Int).length ∧
    compute_batch_drmsd [List.replicate 28 ((some 0, some 0, some 0) : RVec3)]
      [List.replicate 28 ((some 0, some 0, some 0) : RVec3)] [[1, 20]] =
      none :=
  ⟨rfl, rfl⟩
